import Mathlib

/-!
# Shallow embedding of `library/heston.py`

The repository prices European calls under the Heston model via the
Albrecher–Gatheral closed form (`ComputeHeston`) and simulates correlated
asset/variance paths (`simulate_heston`), plus row-wise table wrappers and
finite-difference Greeks.

Modelling conventions:
* Python floats are modelled as real numbers.
* A float `NaN` (as produced by `np.sqrt` applied to a negative real
  argument) is modelled as `none : Option ℝ`, and arithmetic on such
  values propagates `none` exactly as IEEE `NaN` propagates.
* A Python exception raised by a call is modelled as `none` at the
  result type of that call.
* The numerical quadrature `scipy.integrate.quad(h, a, b)` is modelled by
  the exact integral `∫ xi in a..b, h xi`.
* The pseudo-random draws `np.random.standard_normal` are inputs of the
  embedded simulator (sequences `w0`, `aux`).
-/

namespace Heston

noncomputable section

/-- `np.sqrt` on a real float: `NaN` (modelled as `none`) for negative input. -/
def npSqrt (x : ℝ) : Option ℝ := if x < 0 then none else some (Real.sqrt x)

/-- `np.sqrt` on a complex argument: the principal square root `z ^ (1/2)`. -/
def csqrt (z : ℂ) : ℂ := z ^ ((1 : ℂ) / 2)

/-- `day_count = 253` from `simulate_heston`. -/
def day_count : ℕ := 253

/-- `dt = 1 / day_count` from `simulate_heston`. -/
def dt : ℝ := 1 / (day_count : ℝ)

/-- The scalar entries of the `params` dict consumed by `simulate_heston`
(`mu`, `kappa`, `theta`, `sigma`, `rho`, `s0`, `v0`); the two calendar
entries are abstracted into the grid length `m` below. -/
structure SimParams where
  mu : ℝ
  kappa : ℝ
  theta : ℝ
  sigma : ℝ
  rho : ℝ
  s0 : ℝ
  v0 : ℝ

/-- `w1 = rho * w0 + np.sqrt(1 - rho ** 2) * w1` from `simulate_heston`:
the variance-driving shock built from the asset shock `w0` and the
auxiliary draw `aux`; `NaN` (i.e. `none`) when `1 - rho^2 < 0`. -/
def heston_w1 (rho : ℝ) (w0 aux : ℕ → ℝ) (i : ℕ) : Option ℝ :=
  (npSqrt (1 - rho ^ 2)).map fun c => rho * w0 i + c * aux i

/-- One iteration of the `for t in range(1, m)` loop of `simulate_heston`:
Euler step for the asset, Milstein step for the variance, both reading the
previous step's values.  The square-root argument `path[1, t-1] * dt` is
taken exactly as in the source, with no guard against negative variance. -/
def heston_step (p : SimParams) (w0t w1t : Option ℝ) (prev : Option ℝ × Option ℝ) :
    Option ℝ × Option ℝ :=
  let sq := prev.2.bind fun v => npSqrt (v * dt)
  (prev.1.bind fun s => sq.bind fun q => w0t.map fun w =>
      s * (1 + p.mu * dt + q * w),
   prev.2.bind fun v => sq.bind fun q => w1t.map fun w =>
      v + p.kappa * (p.theta - v) * dt + p.sigma * q * w +
        1 / 4 * p.sigma ^ 2 * dt * (w ^ 2 - 1))

/-- The `path` array of `simulate_heston` as a function of the time index:
index `0` holds `(s0, v0)`, index `t+1` is one loop iteration applied to
index `t`. -/
def heston_path (p : SimParams) (w0 w1 : ℕ → Option ℝ) : ℕ → Option ℝ × Option ℝ
  | 0 => (some p.s0, some p.v0)
  | t + 1 => heston_step p (w0 t) (w1 t) (heston_path p w0 w1 t)

/-- `simulate_heston`, with the business-day grid abstracted by its length
`m` and the two standard-normal draws `w0`, `aux` passed explicitly.
For `m = 0` the assignment `path[0, 0] = s0` indexes an empty axis and
raises an `IndexError`, modelled as `none`; otherwise the full path of
length `m` is returned. -/
def simulate_heston (p : SimParams) (m : ℕ) (w0 aux : ℕ → ℝ) :
    Option (List (Option ℝ × Option ℝ)) :=
  if m = 0 then none
  else some ((List.range m).map (heston_path p (fun i => some (w0 i)) (heston_w1 p.rho w0 aux)))

/-- The real-valued variance shock `rho * w0 i + Real.sqrt (1 - rho^2) * aux i`
(meaningful when `rho^2 ≤ 1`); used to state the guarded recurrence of the
claim. -/
def w1fun (rho : ℝ) (w0 aux : ℕ → ℝ) (i : ℕ) : ℝ :=
  rho * w0 i + Real.sqrt (1 - rho ^ 2) * aux i

/-- The recurrence exactly as the claim states it: identical to the source
recurrence except that the square-root argument is guarded,
`sqrt(max(V[t-1], 0) * dt)`.  This definition follows the claim's words
and is compared against `heston_path`, which follows the source. -/
def claimed_path (p : SimParams) (w0 w1 : ℕ → ℝ) : ℕ → ℝ × ℝ
  | 0 => (p.s0, p.v0)
  | t + 1 =>
      let prev := claimed_path p w0 w1 t
      (prev.1 * (1 + p.mu * dt + Real.sqrt (max prev.2 0 * dt) * w0 t),
       prev.2 + p.kappa * (p.theta - prev.2) * dt +
         p.sigma * Real.sqrt (max prev.2 0 * dt) * w1 t +
         1 / 4 * p.sigma ^ 2 * dt * (w1 t ^ 2 - 1))

/-- The pricer object: `ComputeHeston.__init__` stores the five model
parameters unchanged. -/
structure ComputeHeston where
  kappa : ℝ
  theta : ℝ
  sigma : ℝ
  rho : ℝ
  r : ℝ

/-- `ComputeHeston(kappa, theta, sigma, rho, r)` as a fallible call: the
constructor body only stores the fields and contains no validation and no
failure path, so it always returns `some`. -/
def ComputeHeston.init (kappa theta sigma rho r : ℝ) : Option ComputeHeston :=
  some ⟨kappa, theta, sigma, rho, r⟩

/-- `ComputeHeston.characteristic_func`: the Albrecher–Gatheral form of the
Heston characteristic function, evaluated with principal complex square
root, logarithm and exponential. -/
def ComputeHeston.characteristic_func (p : ComputeHeston) (xi : ℂ) (s0 v0 tau : ℝ) : ℂ :=
  let ixi : ℂ := Complex.I * xi
  let d : ℂ := csqrt ((↑p.kappa - ixi * ↑p.rho * ↑p.sigma) ^ 2 + ↑p.sigma ^ 2 * (ixi + xi ^ 2))
  let g : ℂ := (↑p.kappa - ixi * ↑p.rho * ↑p.sigma - d) / (↑p.kappa - ixi * ↑p.rho * ↑p.sigma + d)
  let ee : ℂ := Complex.exp (-d * ↑tau)
  let C : ℂ := ixi * ↑p.r * ↑tau + ↑p.kappa * ↑p.theta / ↑p.sigma ^ 2 *
    ((↑p.kappa - ixi * ↑p.rho * ↑p.sigma - d) * ↑tau -
      2 * Complex.log ((1 - g * ee) / (1 - g)))
  let D : ℂ := (↑p.kappa - ixi * ↑p.rho * ↑p.sigma - d) / ↑p.sigma ^ 2 * ((1 - ee) / (1 - g * ee))
  Complex.exp (C + D * ↑v0 + ixi * Complex.log ↑s0)

/-- `ComputeHeston.integ_func`: the two real integrands of the pricing
integral (`num = 1` and `num = 2`). -/
def ComputeHeston.integ_func (p : ComputeHeston) (xi s0 v0 K tau : ℝ) (num : ℕ) : ℝ :=
  let ixi : ℂ := Complex.I * ↑xi
  if num = 1 then
    (p.characteristic_func (↑xi - Complex.I) s0 v0 tau /
        (ixi * p.characteristic_func (-Complex.I) s0 v0 tau) *
        Complex.exp (-ixi * Complex.log ↑K)).re
  else
    (p.characteristic_func ↑xi s0 v0 tau / ixi * Complex.exp (-ixi * Complex.log ↑K)).re

/-- The lower integration bound passed to `quad` in `call_price`. -/
def quad_lower : ℝ := 0

/-- The upper integration bound passed to `quad` in `call_price`. -/
def quad_upper : ℝ := 500

/-- `ComputeHeston.call_price`: the simplified one-integration Heston call
price, with `quad(h, 0, 500.)` modelled as the exact integral over
`[quad_lower, quad_upper]`. -/
def ComputeHeston.call_price (p : ComputeHeston) (s0 v0 K tau : ℝ) : ℝ :=
  0.5 * (s0 - K * Real.exp (-p.r * tau)) +
    1 / Real.pi * ∫ xi in quad_lower..quad_upper,
      (s0 * p.integ_func xi s0 v0 K tau 1 -
        K * Real.exp (-p.r * tau) * p.integ_func xi s0 v0 K tau 2)

/-- One row of the quote tables consumed by the wrappers: spot, variance,
strike and time-to-maturity (columns `S0`/`Var0`/`K`/`tau0`, resp. the
caller-named columns of the 1M-ATM wrapper). -/
structure QuoteRow where
  s : ℝ
  var : ℝ
  k : ℝ
  tau : ℝ

/-- The near-expiry threshold `0.0039` appearing in both wrappers. -/
def threshold : ℝ := 0.0039

/-- The value `hs_price_wrapper` writes into the output column for one row:
intrinsic value below the threshold, `call_price` otherwise. -/
def hs_price_row (pricer : ComputeHeston) (row : QuoteRow) : ℝ :=
  if row.tau < threshold then max (row.s - row.k) 0
  else pricer.call_price row.s row.var row.k row.tau

/-- `hs_price_wrapper`: each row's output value depends only on that row. -/
def hs_price_wrapper (pricer : ComputeHeston) (df : List QuoteRow) : List ℝ :=
  df.map (hs_price_row pricer)

/-- The loop of `hs_price_1M_ATM_wrapper`, carrying the Python local
variable `price` (`none` while it is still unassigned).  In the
below-threshold branch the intrinsic value written at line 116 is
immediately overwritten by the unconditional `df.loc[ix, v_name] = price`
at line 119; reading `price` before any assignment raises
`UnboundLocalError`, modelled as `none`. -/
def hs_1M_go (pricer : ComputeHeston) : Option ℝ → List QuoteRow → Option (List ℝ)
  | _, [] => some []
  | priceVar, row :: rest =>
      if row.tau < threshold then
        priceVar.bind fun p => (hs_1M_go pricer (some p) rest).map (p :: ·)
      else
        (hs_1M_go pricer (some (pricer.call_price row.s row.var row.k row.tau)) rest).map
          (pricer.call_price row.s row.var row.k row.tau :: ·)

/-- `hs_price_1M_ATM_wrapper`: the output column, or `none` when the run
raises `UnboundLocalError`. -/
def hs_price_1M_ATM_wrapper (pricer : ComputeHeston) (df : List QuoteRow) : Option (List ℝ) :=
  hs_1M_go pricer none df

/-- The value of the Python local `price` after the loop has processed the
given rows, starting from `init`: rows at or above the threshold overwrite
it with their computed `call_price`, rows below leave it unchanged. -/
def carried_price (pricer : ComputeHeston) : Option ℝ → List QuoteRow → Option ℝ
  | init, [] => init
  | init, row :: rest =>
      carried_price pricer
        (if row.tau < threshold then init
         else some (pricer.call_price row.s row.var row.k row.tau)) rest

/-- `calc_Heston_delta_by_FD`: symmetric finite difference in spot. -/
def calc_Heston_delta_by_FD (s0 v0 k tau : ℝ) (pricer : ComputeHeston) : ℝ :=
  let ds := s0 * 0.001
  let p_plus := pricer.call_price (s0 + ds) v0 k tau
  let p_minus := pricer.call_price (s0 - ds) v0 k tau
  (p_plus - p_minus) / (2 * ds)

/-- `calc_Heston_vega_by_FD`: symmetric finite difference in the variance
state (not in implied volatility). -/
def calc_Heston_vega_by_FD (s0 v0 k tau : ℝ) (pricer : ComputeHeston) : ℝ :=
  let dv := v0 * 0.001
  let p_plus := pricer.call_price s0 (v0 + dv) k tau
  let p_minus := pricer.call_price s0 (v0 - dv) k tau
  (p_plus - p_minus) / (2 * dv)

/-- A concrete pricer used in witnesses and counterexamples. -/
def pricer0 : ComputeHeston := ⟨1, 1, 1, 0, 0⟩

end

lemma npSqrt_of_nonneg {x : ℝ} (hx : 0 ≤ x) : npSqrt x = some (Real.sqrt x) := by
  simp [npSqrt, not_lt.mpr hx]

lemma npSqrt_of_neg {x : ℝ} (hx : x < 0) : npSqrt x = none := by
  simp [npSqrt, hx]

lemma csqrt_ofReal_sq {x : ℝ} (hx : 0 ≤ x) : csqrt ((x : ℂ) ^ 2) = (x : ℂ) := by
  have h1 : ((x : ℂ) ^ 2) = ((x ^ 2 : ℝ) : ℂ) := by push_cast; ring
  have h2 : ((1 : ℂ) / 2) = ((1 / 2 : ℝ) : ℂ) := by norm_num
  rw [csqrt, h1, h2, ← Complex.ofReal_cpow (by positivity)]
  rw [← Real.sqrt_eq_rpow, Real.sqrt_sq hx]

lemma heston_w1_of_sq_le {rho : ℝ} (h : rho ^ 2 ≤ 1) (w0 aux : ℕ → ℝ) (i : ℕ) :
    heston_w1 rho w0 aux i = some (w1fun rho w0 aux i) := by
  rw [heston_w1, npSqrt_of_nonneg (by linarith)]
  rfl

/-- C10: `calc_Heston_delta_by_FD` is the symmetric finite difference of
`call_price` in spot with bump `ds = s0 * 0.001`, and `calc_Heston_vega_by_FD`
is the symmetric finite difference in the variance state with bump
`dv = v0 * 0.001`. -/
theorem C10_fd_greeks (s0 v0 k tau : ℝ) (pricer : ComputeHeston)
    (hs0 : 0 < s0) (hv0 : 0 < v0) (hk : 0 < k) (htau : 0 < tau) :
    calc_Heston_delta_by_FD s0 v0 k tau pricer =
      (pricer.call_price (s0 + s0 * 0.001) v0 k tau -
        pricer.call_price (s0 - s0 * 0.001) v0 k tau) / (2 * (s0 * 0.001)) ∧
    calc_Heston_vega_by_FD s0 v0 k tau pricer =
      (pricer.call_price s0 (v0 + v0 * 0.001) k tau -
        pricer.call_price s0 (v0 - v0 * 0.001) k tau) / (2 * (v0 * 0.001)) :=
  ⟨rfl, rfl⟩

/-- Witness for C10 at `s0 = v0 = k = tau = 1`. -/
theorem C10_fd_greeks_witness :
    calc_Heston_delta_by_FD 1 1 1 1 pricer0 =
      (pricer0.call_price (1 + 1 * 0.001) 1 1 1 -
        pricer0.call_price (1 - 1 * 0.001) 1 1 1) / (2 * (1 * 0.001)) ∧
    calc_Heston_vega_by_FD 1 1 1 1 pricer0 =
      (pricer0.call_price 1 (1 + 1 * 0.001) 1 1 -
        pricer0.call_price 1 (1 - 1 * 0.001) 1 1) / (2 * (1 * 0.001)) :=
  C10_fd_greeks 1 1 1 1 pricer0 one_pos one_pos one_pos one_pos

/-- C8: `simulate_heston` builds the variance shock as
`w1 = rho * w0 + sqrt(1 - rho^2) * aux`; for `rho = 1` it equals `w0`
elementwise and for `rho = -1` it equals `-w0` elementwise. -/
theorem C8_shock_construction (rho : ℝ) (w0 aux : ℕ → ℝ) (i : ℕ) :
    (rho ^ 2 ≤ 1 → heston_w1 rho w0 aux i =
      some (rho * w0 i + Real.sqrt (1 - rho ^ 2) * aux i)) ∧
    heston_w1 1 w0 aux i = some (w0 i) ∧
    heston_w1 (-1) w0 aux i = some (-w0 i) := by
  refine ⟨fun h => heston_w1_of_sq_le h w0 aux i, ?_, ?_⟩
  · rw [heston_w1, show (1 : ℝ) - 1 ^ 2 = 0 by norm_num, npSqrt_of_nonneg le_rfl]
    simp [Real.sqrt_zero]
  · rw [heston_w1, show (1 : ℝ) - (-1) ^ 2 = 0 by norm_num, npSqrt_of_nonneg le_rfl]
    simp [Real.sqrt_zero]

/-- Witness for C8 at `rho = 1`, `rho = -1` and `rho = 0`. -/
theorem C8_shock_construction_witness :
    heston_w1 1 (fun _ => 2) (fun _ => 3) 0 = some 2 ∧
    heston_w1 (-1) (fun _ => 2) (fun _ => 3) 0 = some (-2) ∧
    heston_w1 0 (fun _ => 2) (fun _ => 3) 0 =
      some (0 * 2 + Real.sqrt (1 - 0 ^ 2) * 3) :=
  ⟨(C8_shock_construction 1 (fun _ => 2) (fun _ => 3) 0).2.1,
   (C8_shock_construction (-1) (fun _ => 2) (fun _ => 3) 0).2.2,
   (C8_shock_construction 0 (fun _ => 2) (fun _ => 3) 0).1 (by norm_num)⟩

lemma hs_1M_go_spec (pricer : ComputeHeston) (rows : List QuoteRow) :
    ∀ (init : Option ℝ) (out : List ℝ), hs_1M_go pricer init rows = some out →
      out.length = rows.length ∧
      ∀ (i : ℕ) (row : QuoteRow), rows[i]? = some row →
        (row.tau < threshold → out[i]? = carried_price pricer init (rows.take i)) ∧
        (threshold ≤ row.tau →
          out[i]? = some (pricer.call_price row.s row.var row.k row.tau)) := by
  induction rows with
  | nil =>
      intro init out h
      simp only [hs_1M_go, Option.some.injEq] at h
      subst h
      simp
  | cons row rest ih =>
      intro init out h
      by_cases htau : row.tau < threshold
      · rw [hs_1M_go, if_pos htau] at h
        cases init with
        | none => exact absurd h (by simp)
        | some pv =>
            rw [Option.some_bind, Option.map_eq_some'] at h
            obtain ⟨out', hout', rfl⟩ := h
            obtain ⟨hlen, hspec⟩ := ih (some pv) out' hout'
            refine ⟨by simpa using hlen, ?_⟩
            intro i r hi
            match i with
            | 0 =>
                rw [List.getElem?_cons_zero, Option.some.injEq] at hi
                subst hi
                exact ⟨fun _ => by simp [carried_price],
                  fun hge => absurd htau (not_lt.mpr hge)⟩
            | i + 1 =>
                rw [List.getElem?_cons_succ] at hi
                refine ⟨fun hlt => ?_, fun hge => ?_⟩
                · have h1 := (hspec i r hi).1 hlt
                  rw [List.getElem?_cons_succ, List.take_succ_cons, carried_price,
                    if_pos htau]
                  exact h1
                · rw [List.getElem?_cons_succ]
                  exact (hspec i r hi).2 hge
      · rw [hs_1M_go, if_neg htau] at h
        rw [Option.map_eq_some'] at h
        obtain ⟨out', hout', rfl⟩ := h
        obtain ⟨hlen, hspec⟩ :=
          ih (some (pricer.call_price row.s row.var row.k row.tau)) out' hout'
        refine ⟨by simpa using hlen, ?_⟩
        intro i r hi
        match i with
        | 0 =>
            rw [List.getElem?_cons_zero, Option.some.injEq] at hi
            subst hi
            exact ⟨fun hlt => absurd hlt htau, fun _ => by simp⟩
        | i + 1 =>
            rw [List.getElem?_cons_succ] at hi
            refine ⟨fun hlt => ?_, fun hge => ?_⟩
            · have h1 := (hspec i r hi).1 hlt
              rw [List.getElem?_cons_succ, List.take_succ_cons, carried_price,
                if_neg htau]
              exact h1
            · rw [List.getElem?_cons_succ]
              exact (hspec i r hi).2 hge

lemma dt_pos : 0 < dt := by norm_num [dt, day_count]

lemma heston_path_eq_claimed (p : SimParams) (w0 aux : ℕ → ℝ) (hrho : p.rho ^ 2 ≤ 1)
    (t : ℕ) (hV : ∀ s, s < t → 0 ≤ (claimed_path p w0 (w1fun p.rho w0 aux) s).2) :
    heston_path p (fun i => some (w0 i)) (heston_w1 p.rho w0 aux) t =
      (some (claimed_path p w0 (w1fun p.rho w0 aux) t).1,
       some (claimed_path p w0 (w1fun p.rho w0 aux) t).2) := by
  induction t with
  | zero => rfl
  | succ t ih =>
      have IH := ih fun s hs => hV s (hs.trans (Nat.lt_succ_self t))
      have hVt : 0 ≤ (claimed_path p w0 (w1fun p.rho w0 aux) t).2 :=
        hV t (Nat.lt_succ_self t)
      rw [heston_path, IH, heston_w1_of_sq_le hrho]
      simp only [heston_step, Option.some_bind, Option.map_some',
        npSqrt_of_nonneg (mul_nonneg hVt dt_pos.le)]
      rw [claimed_path]
      simp only [max_eq_left hVt]

/-- C2 (amended): index 0 of the simulated path holds exactly `(s0, v0)`,
and each step is computed from the previous step's values by the claimed
Euler/Milstein formulas — except that the square-root argument is **not**
guarded: the code takes `sqrt(V[t-1] * dt)` directly, so the claimed
(guarded) values are produced exactly as long as every prior variance is
nonnegative, while a negative prior variance yields `NaN` instead.
`simulate_heston` returns this path on the whole grid. -/
theorem C2_recurrence (p : SimParams) (w0 aux : ℕ → ℝ) (t m : ℕ)
    (hrho : p.rho ^ 2 ≤ 1)
    (hV : ∀ s, s < t → 0 ≤ (claimed_path p w0 (w1fun p.rho w0 aux) s).2)
    (hm : m ≠ 0) :
    heston_path p (fun i => some (w0 i)) (heston_w1 p.rho w0 aux) 0 =
      (some p.s0, some p.v0) ∧
    heston_path p (fun i => some (w0 i)) (heston_w1 p.rho w0 aux) t =
      (some (claimed_path p w0 (w1fun p.rho w0 aux) t).1,
       some (claimed_path p w0 (w1fun p.rho w0 aux) t).2) ∧
    simulate_heston p m w0 aux =
      some ((List.range m).map
        (heston_path p (fun i => some (w0 i)) (heston_w1 p.rho w0 aux))) := by
  refine ⟨rfl, heston_path_eq_claimed p w0 aux hrho t hV, ?_⟩
  rw [simulate_heston, if_neg hm]

/-- Witness for C2 with `kappa = 1`, all other parameters and shocks zero,
`s0 = 1`, `v0 = 0`, over two steps (all variances stay nonnegative). -/
theorem C2_recurrence_witness :
    heston_path ⟨0, 1, 0, 0, 0, 1, 0⟩ (fun i => some 0)
        (heston_w1 0 (fun _ => 0) (fun _ => 0)) 2 =
      (some (claimed_path ⟨0, 1, 0, 0, 0, 1, 0⟩ (fun _ => 0)
          (w1fun 0 (fun _ => 0) (fun _ => 0)) 2).1,
       some (claimed_path ⟨0, 1, 0, 0, 0, 1, 0⟩ (fun _ => 0)
          (w1fun 0 (fun _ => 0) (fun _ => 0)) 2).2) :=
  (C2_recurrence ⟨0, 1, 0, 0, 0, 1, 0⟩ (fun _ => 0) (fun _ => 0) 2 2 (by norm_num)
    (by
      intro s hs
      interval_cases s <;> norm_num [claimed_path, w1fun])
    (by norm_num)).2.1

/-- C2 counterexample: with `sigma = 2`, `s0 = 1`, `v0 = 0` and all shocks
zero, the variance goes negative after one step (`V[1] = -1/253`), so at
step 2 the unguarded `sqrt(V[1] * dt)` is `NaN` and the code's path is
`(NaN, NaN)`, whereas the claimed guarded recurrence gives the real values
`(1, -2/253)`. -/
theorem C2_counterexample :
    heston_path ⟨0, 0, 0, 2, 0, 1, 0⟩ (fun i => some 0)
        (heston_w1 0 (fun _ => 0) (fun _ => 0)) 2 = (none, none) ∧
    claimed_path ⟨0, 0, 0, 2, 0, 1, 0⟩ (fun _ => 0)
        (w1fun 0 (fun _ => 0) (fun _ => 0)) 2 = (1, -(2 / 253)) ∧
    heston_path ⟨0, 0, 0, 2, 0, 1, 0⟩ (fun i => some 0)
        (heston_w1 0 (fun _ => 0) (fun _ => 0)) 2 ≠
      (some (claimed_path ⟨0, 0, 0, 2, 0, 1, 0⟩ (fun _ => 0)
          (w1fun 0 (fun _ => 0) (fun _ => 0)) 2).1,
       some (claimed_path ⟨0, 0, 0, 2, 0, 1, 0⟩ (fun _ => 0)
          (w1fun 0 (fun _ => 0) (fun _ => 0)) 2).2) := by
  have h1 : heston_path ⟨0, 0, 0, 2, 0, 1, 0⟩ (fun i => some 0)
      (heston_w1 0 (fun _ => 0) (fun _ => 0)) 1 = (some 1, some (-(1 / 253))) := by
    norm_num [heston_path, heston_step, heston_w1, npSqrt, dt, day_count,
      Real.sqrt_zero]
  have h2 : heston_path ⟨0, 0, 0, 2, 0, 1, 0⟩ (fun i => some 0)
      (heston_w1 0 (fun _ => 0) (fun _ => 0)) 2 = (none, none) := by
    rw [show (2 : ℕ) = 1 + 1 from rfl, heston_path, h1]
    rw [heston_step]
    rw [show (some (-(1 / 253 : ℝ))).bind (fun v => npSqrt (v * dt)) =
        npSqrt (-(1 / 253) * dt) from rfl]
    rw [npSqrt_of_neg (by norm_num [dt, day_count])]
    rfl
  have hc1 : claimed_path ⟨0, 0, 0, 2, 0, 1, 0⟩ (fun _ => 0)
      (w1fun 0 (fun _ => 0) (fun _ => 0)) 1 = (1, -(1 / 253)) := by
    norm_num [claimed_path, w1fun, dt, day_count]
  have hc2 : claimed_path ⟨0, 0, 0, 2, 0, 1, 0⟩ (fun _ => 0)
      (w1fun 0 (fun _ => 0) (fun _ => 0)) 2 = (1, -(2 / 253)) := by
    rw [show (2 : ℕ) = 1 + 1 from rfl, claimed_path, hc1]
    norm_num [w1fun, dt, day_count]
  refine ⟨h2, hc2, ?_⟩
  rw [h2, hc2]
  simp

/-- C5: in `hs_price_1M_ATM_wrapper` the assignment `df.loc[ix, v_name] = price`
runs unconditionally after the `tau` branch, so a first row below the
threshold reads the unassigned local `price` and the call fails
(`UnboundLocalError`, a `NameError`), while any later below-threshold row
ends up holding the `call_price` computed for an earlier row (the value
carried in `price`), not its own intrinsic value. -/
theorem C5_unconditional_assignment (pricer : ComputeHeston) :
    (∀ (row : QuoteRow) (rest : List QuoteRow), row.tau < threshold →
      hs_price_1M_ATM_wrapper pricer (row :: rest) = none) ∧
    (∀ (rows : List QuoteRow) (out : List ℝ) (i : ℕ) (row : QuoteRow),
      hs_price_1M_ATM_wrapper pricer rows = some out → rows[i]? = some row →
      row.tau < threshold →
        out[i]? = carried_price pricer none (rows.take i) ∧ out[i]? ≠ none) := by
  constructor
  · intro row rest htau
    rw [hs_price_1M_ATM_wrapper, hs_1M_go, if_pos htau, Option.none_bind]
  · intro rows out i row hout hi htau
    obtain ⟨hlen, hspec⟩ := hs_1M_go_spec pricer rows none out hout
    refine ⟨(hspec i row hi).1 htau, ?_⟩
    have hi' : i < rows.length := by
      by_contra hge
      rw [List.getElem?_eq_none (le_of_not_lt hge)] at hi
      exact Option.noConfusion hi
    rw [List.getElem?_eq_getElem (show i < out.length by omega)]
    simp

/-- Witness for C5: a table whose first row is below the threshold makes
the wrapper fail with the unbound-local error. -/
theorem C5_unconditional_assignment_witness :
    hs_price_1M_ATM_wrapper pricer0 [⟨5, 1/25, 1, 1/1000⟩] = none :=
  (C5_unconditional_assignment pricer0).1 ⟨5, 1/25, 1, 1/1000⟩ []
    (by norm_num [threshold])

/-- C4 (amended): for `hs_price_wrapper` a below-threshold row receives
exactly the intrinsic value `max(s - K, 0)` and `call_price` is not
consulted (the row's output does not depend on the pricer).  For
`hs_price_1M_ATM_wrapper` the same property fails: `call_price` is still
not invoked for such a row, but the intrinsic value written first is
overwritten by the unconditional assignment of the loop local `price` — in
particular a table whose only row is below the threshold makes the call
fail instead of returning the intrinsic value. -/
theorem C4_intrinsic_below_threshold (pricer pricer2 : ComputeHeston)
    (df : List QuoteRow) (i : ℕ) (row : QuoteRow)
    (hget : df[i]? = some row) (htau : row.tau < threshold) :
    (hs_price_wrapper pricer df)[i]? = some (max (row.s - row.k) 0) ∧
    hs_price_row pricer row = hs_price_row pricer2 row ∧
    hs_price_1M_ATM_wrapper pricer [row] = none := by
  refine ⟨?_, ?_, ?_⟩
  · rw [hs_price_wrapper, List.getElem?_map, hget, Option.map_some']
    rw [hs_price_row, if_pos htau]
  · rw [hs_price_row, if_pos htau, hs_price_row, if_pos htau]
  · rw [hs_price_1M_ATM_wrapper, hs_1M_go, if_pos htau, Option.none_bind]

/-- Witness for C4 on a one-row table with `tau = 0.001 < 0.0039`. -/
theorem C4_intrinsic_below_threshold_witness :
    (hs_price_wrapper pricer0 [⟨5, 1/25, 1, 1/1000⟩])[0]? =
      some (max ((5 : ℝ) - 1) 0) ∧
    hs_price_row pricer0 ⟨5, 1/25, 1, 1/1000⟩ =
      hs_price_row ⟨2, 2, 2, 2, 2⟩ ⟨5, 1/25, 1, 1/1000⟩ ∧
    hs_price_1M_ATM_wrapper pricer0 [⟨5, 1/25, 1, 1/1000⟩] = none :=
  C4_intrinsic_below_threshold pricer0 ⟨2, 2, 2, 2, 2⟩ [⟨5, 1/25, 1, 1/1000⟩] 0
    ⟨5, 1/25, 1, 1/1000⟩ rfl (by norm_num [threshold])

/-- C4 counterexample: for `hs_price_1M_ATM_wrapper` a below-threshold row
does not end up holding its intrinsic value: with the single row
`(s, var, K, tau) = (5, 1/25, 1, 0.001)` the call fails (unbound local
`price`) instead of writing `max(s - K, 0)`. -/
theorem C4_counterexample :
    hs_price_1M_ATM_wrapper pricer0 [⟨5, 1/25, 1, 1/1000⟩] ≠
      some [max ((5 : ℝ) - 1) 0] := by
  rw [hs_price_1M_ATM_wrapper, hs_1M_go, if_pos (by norm_num [threshold]),
    Option.none_bind]
  simp

/-- C3: at frequency `xi = 0` the Heston characteristic function equals 1
for every valid parameter set (`kappa, theta, sigma > 0`, `rho ∈ [-1, 1]`,
any `r`) and every `s0 > 0`, `v0`, `tau > 0`. -/
theorem C3_cf_at_zero (p : ComputeHeston) (s0 v0 tau : ℝ)
    (hk : 0 < p.kappa) (hth : 0 < p.theta) (hs : 0 < p.sigma)
    (hrho : p.rho ∈ Set.Icc (-1 : ℝ) 1) (hs0 : 0 < s0) (htau : 0 < tau) :
    p.characteristic_func 0 s0 v0 tau = 1 := by
  have hd : csqrt ((↑p.kappa - Complex.I * 0 * ↑p.rho * ↑p.sigma) ^ 2 +
      (↑p.sigma : ℂ) ^ 2 * (Complex.I * 0 + 0 ^ 2)) = (p.kappa : ℂ) := by
    rw [show (↑p.kappa - Complex.I * 0 * ↑p.rho * ↑p.sigma) ^ 2 +
        (↑p.sigma : ℂ) ^ 2 * (Complex.I * 0 + 0 ^ 2) = (↑p.kappa : ℂ) ^ 2 by ring]
    exact csqrt_ofReal_sq hk.le
  simp only [ComputeHeston.characteristic_func]
  rw [hd]
  rw [show (↑p.kappa - Complex.I * 0 * ↑p.rho * ↑p.sigma - ↑p.kappa : ℂ) = 0 by ring]
  simp [Complex.log_one, Complex.exp_zero]

/-- Witness for C3 with unit parameters, `s0 = 1`, `v0 = 0`, `tau = 1`. -/
theorem C3_cf_at_zero_witness : pricer0.characteristic_func 0 1 0 1 = 1 :=
  C3_cf_at_zero pricer0 1 0 1 one_pos one_pos one_pos
    (by constructor <;> norm_num [pricer0]) one_pos one_pos

/-- C1: `call_price` returns exactly `0.5*(s0 - K*exp(-r*tau))` plus `1/π`
times the integral from the lower bound up to the finite cutoff 500 of
`s0 * Re[CF(xi-i)/(i*xi*CF(-i)) * exp(-i*xi*ln K)] -
K*exp(-r*tau) * Re[CF(xi)/(i*xi) * exp(-i*xi*ln K)]`; the infinite upper
bound of the exact formula is truncated to 500 and no correction term for
the truncation is added. -/
theorem C1_call_price_formula (p : ComputeHeston) (s0 v0 K tau : ℝ)
    (hs0 : 0 < s0) (hK : 0 < K) (htau : 0 < tau) :
    p.call_price s0 v0 K tau =
      0.5 * (s0 - K * Real.exp (-p.r * tau)) +
        1 / Real.pi * ∫ xi in (0 : ℝ)..500,
          (s0 * (p.characteristic_func (↑xi - Complex.I) s0 v0 tau /
              (Complex.I * ↑xi * p.characteristic_func (-Complex.I) s0 v0 tau) *
              Complex.exp (-(Complex.I * ↑xi) * Complex.log ↑K)).re -
           K * Real.exp (-p.r * tau) *
            (p.characteristic_func ↑xi s0 v0 tau / (Complex.I * ↑xi) *
              Complex.exp (-(Complex.I * ↑xi) * Complex.log ↑K)).re) := by
  rw [ComputeHeston.call_price, quad_lower, quad_upper]
  congr 1

/-- Witness for C1 at `s0 = v0 = K = tau = 1` with unit parameters. -/
theorem C1_call_price_formula_witness :
    pricer0.call_price 1 1 1 1 =
      0.5 * (1 - 1 * Real.exp (-pricer0.r * 1)) +
        1 / Real.pi * ∫ xi in (0 : ℝ)..500,
          ((1 : ℝ) * (pricer0.characteristic_func (↑xi - Complex.I) 1 1 1 /
              (Complex.I * ↑xi * pricer0.characteristic_func (-Complex.I) 1 1 1) *
              Complex.exp (-(Complex.I * ↑xi) * Complex.log ↑(1 : ℝ))).re -
           1 * Real.exp (-pricer0.r * 1) *
            (pricer0.characteristic_func ↑xi 1 1 1 / (Complex.I * ↑xi) *
              Complex.exp (-(Complex.I * ↑xi) * Complex.log ↑(1 : ℝ))).re) :=
  C1_call_price_formula pricer0 1 1 1 1 one_pos one_pos one_pos

/-- C7 (amended): the bounds passed to `quad` by `call_price` are exactly
`(0, 500)` — the lower bound is 0, not strictly above 0 — but the value of
the modelled integral depends only on the integrand on the open interval
`(0, 500)`, so the removable singularity of `integ_func` at `xi = 0`
contributes nothing to the price. -/
theorem C7_integration_bounds (p : ComputeHeston) (s0 v0 K tau : ℝ) :
    quad_lower = 0 ∧ quad_upper = 500 ∧
    p.call_price s0 v0 K tau =
      0.5 * (s0 - K * Real.exp (-p.r * tau)) +
        1 / Real.pi * ∫ xi in Set.Ioo (0 : ℝ) 500,
          (s0 * p.integ_func xi s0 v0 K tau 1 -
            K * Real.exp (-p.r * tau) * p.integ_func xi s0 v0 K tau 2) := by
  refine ⟨rfl, rfl, ?_⟩
  rw [ComputeHeston.call_price, quad_lower, quad_upper]
  rw [intervalIntegral.integral_of_le (by norm_num)]
  rw [MeasureTheory.integral_Ioc_eq_integral_Ioo]

/-- C7 counterexample: the lower integration bound passed to `quad` by
`call_price` is exactly 0, not strictly above 0 as claimed. -/
theorem C7_counterexample : quad_lower = 0 ∧ ¬ 0 < quad_lower := by
  norm_num [quad_lower]

/-- C6 (amended): `simulate_heston` performs no grid-length validation.
For `m = 0` the initial write fails (an `IndexError`, there is no
`InvalidRangeError` in the code) and no path is produced; for `m = 1 < 2`
the call succeeds and returns the single-point path of initial values. -/
theorem C6_no_grid_validation :
    (∀ (p : SimParams) (w0 aux : ℕ → ℝ), simulate_heston p 0 w0 aux = none) ∧
    (∀ (p : SimParams) (w0 aux : ℕ → ℝ),
      simulate_heston p 1 w0 aux = some [(some p.s0, some p.v0)]) := by
  constructor
  · intro p w0 aux
    simp [simulate_heston]
  · intro p w0 aux
    rw [simulate_heston, if_neg one_ne_zero, show List.range 1 = [0] from rfl]
    simp [heston_path]

/-- C6 counterexample: on a one-point grid (`m = 1 < 2`) `simulate_heston`
does not fail at all — it returns the single-point path. -/
theorem C6_counterexample :
    simulate_heston ⟨0, 1, 0, 0, 0, 1, 0⟩ 1 (fun _ => 0) (fun _ => 0) ≠ none := by
  simp [simulate_heston]

/-- C9 (amended): there is no parameter validation: the `ComputeHeston`
constructor stores arbitrary parameters unchanged and always succeeds, and
`simulate_heston` never rejects its parameters (for any nonempty grid it
returns a path; domain violations surface later as `NaN`s). -/
theorem C9_no_parameter_validation :
    (∀ kappa theta sigma rho r : ℝ,
      ComputeHeston.init kappa theta sigma rho r = some ⟨kappa, theta, sigma, rho, r⟩) ∧
    (∀ (p : SimParams) (m : ℕ) (w0 aux : ℕ → ℝ), 0 < m →
      simulate_heston p m w0 aux ≠ none) := by
  constructor
  · intro kappa theta sigma rho r
    rfl
  · intro p m w0 aux hm
    rw [simulate_heston, if_neg (Nat.pos_iff_ne_zero.mp hm)]
    simp

/-- Witness for C9: `sigma = -1`, `rho = 2` are accepted by the constructor
and by the simulator. -/
theorem C9_no_parameter_validation_witness :
    ComputeHeston.init 1 1 (-1) 2 0 = some ⟨1, 1, -1, 2, 0⟩ ∧
    simulate_heston ⟨0, 0, 0, 1, 2, 1, 0⟩ 1 (fun _ => 0) (fun _ => 0) ≠ none :=
  ⟨C9_no_parameter_validation.1 1 1 (-1) 2 0,
   C9_no_parameter_validation.2 ⟨0, 0, 0, 1, 2, 1, 0⟩ 1 (fun _ => 0) (fun _ => 0) Nat.one_pos⟩

/-- C9 counterexample: constructing `ComputeHeston` with `sigma = -1`,
`rho = 2` succeeds instead of raising `InvalidParameterError`, and
`simulate_heston` run with `rho = 2` also succeeds, the invalid correlation
surfacing only as a `NaN` variance at the first computed step. -/
theorem C9_counterexample :
    ComputeHeston.init 1 1 (-1) 2 0 ≠ none ∧
    simulate_heston ⟨0, 0, 0, 1, 2, 1, 0⟩ 2 (fun _ => 0) (fun _ => 0) =
      some [(some 1, some 0), (some 1, none)] := by
  constructor
  · simp [ComputeHeston.init]
  · rw [simulate_heston, if_neg (by norm_num)]
    norm_num [List.range_succ, heston_path, heston_step, heston_w1, npSqrt, dt]

end Heston
